import Mathlib

/-!
# Verification of `dependency_visualizer.py`

Shallow embedding of the dependency-visualizer program: configuration
loading and validation, dependency extraction from package pages and from a
local fixture repository, and the CLI driver.  The regular-expression scans
of the Python source are embedded as fuel-driven character-list scanners
that mirror `re.findall` left-to-right, non-overlapping matching for the
concrete patterns appearing in the source.
-/

namespace DepViz

/-- Character class `[a-zA-Z0-9_-]` used by every package-name capture. -/
def pyNameChar (c : Char) : Bool :=
  (c.isAlpha || c.isDigit) || c = '_' || c = '-'

/-- The double-quote character. -/
def dquoteChar : Char := Char.ofNat 34

/-- The single-quote character. -/
def squoteChar : Char := Char.ofNat 39

/-- Character class `[\x27"]`: either quote character. -/
def isQuoteChar (c : Char) : Bool := c = squoteChar || c = dquoteChar

/-- Python `\s` on ASCII input: space, tab, newline, CR, VT, FF. -/
def pySpace (c : Char) : Bool :=
  c = ' ' || c = '\t' || c = '\n' || c = '\r' || c = Char.ofNat 11 || c = Char.ofNat 12

/-- Case-insensitive character comparison (`re.IGNORECASE` on ASCII literals). -/
def lowEq (a b : Char) : Bool := a.toLower = b.toLower

/-- Python `s.lower()` as a character list (per-character lowering). -/
def lowerStr (s : String) : List Char := s.toList.map Char.toLower

/-- Python `s.strip()` on ASCII input: drop leading and trailing whitespace. -/
def pyStrip (s : String) : String :=
  String.mk (((s.toList.dropWhile pySpace).reverse.dropWhile pySpace).reverse)

/-- Python `s.rstrip()` on ASCII input: drop trailing whitespace. -/
def pyRStrip (s : String) : String :=
  String.mk ((s.toList.reverse.dropWhile pySpace).reverse)

/-- Drop a literal from the front of `cs`, comparing characters with `eqc`;
`none` when `cs` does not start with the literal. -/
def dropLitBy (eqc : Char → Char → Bool) : List Char → List Char → Option (List Char)
  | [], cs => some cs
  | _ :: _, [] => none
  | p :: ps, c :: cs => if eqc p c then dropLitBy eqc ps cs else none

/-- Case-sensitive literal match at the front. -/
def dropLit (lit cs : List Char) : Option (List Char) := dropLitBy (fun a b => a = b) lit cs

/-- Case-insensitive literal match at the front. -/
def dropLitCI (lit cs : List Char) : Option (List Char) := dropLitBy lowEq lit cs

/-- Lazy capture `(.*?)lit` with `re.DOTALL`: the text up to the first
occurrence of `lit` (compared by `eqc`), together with the remainder after
that occurrence.  `none` when `lit` never occurs. -/
def findUptoBy (eqc : Char → Char → Bool) (lit : List Char) :
    Nat → List Char → Option (List Char × List Char)
  | 0, _ => none
  | fuel + 1, cs =>
    match dropLitBy eqc lit cs with
    | some rest => some ([], rest)
    | none =>
      match cs with
      | [] => none
      | c :: rest =>
        match findUptoBy eqc lit fuel rest with
        | some (pre, post) => some (c :: pre, post)
        | none => none

/-- Generic `re.findall` driver: at each position try `tryM`; on a match,
record the capture and resume after the match, otherwise advance one
character.  `fuel` bounds the scan (callers pass `length + 1`, which is
always sufficient because every step consumes at least one character). -/
def scanWith (tryM : List Char → Option (String × List Char)) :
    Nat → List Char → List String
  | 0, _ => []
  | _, [] => []
  | fuel + 1, c :: rest =>
    match tryM (c :: rest) with
    | some (cap, remainder) => cap :: scanWith tryM fuel remainder
    | none => scanWith tryM fuel rest

/-- One attempted match of `[\x27"]([a-zA-Z0-9_-]+)[\x27"]` at the current
position (the quoted package-name capture used on every matched region). -/
def tryQuoted : List Char → Option (String × List Char)
  | [] => none
  | c :: rest =>
    if isQuoteChar c then
      let run := rest.takeWhile pyNameChar
      let rest1 := rest.dropWhile pyNameChar
      match rest1 with
      | q :: rest2 =>
        if !run.isEmpty && isQuoteChar q then some (String.mk run, rest2) else none
      | [] => none
    else none

/-- One attempted match of `"([a-zA-Z0-9_-]+)(?:[^"]*)"` (the capture used
by `parse_requires_dist` on the contents of a `requires_dist` array). -/
def tryJsonName : List Char → Option (String × List Char)
  | [] => none
  | c :: rest =>
    if c = dquoteChar then
      let run := rest.takeWhile pyNameChar
      let rest1 := rest.dropWhile pyNameChar
      if run.isEmpty then none
      else
        match rest1.dropWhile (fun d => d ≠ dquoteChar) with
        | q :: rest2 => if q = dquoteChar then some (String.mk run, rest2) else none
        | [] => none
    else none

/-- One attempted match of `<div id="dependencies"[^>]*>(.*?)</div>`
(`re.DOTALL | re.IGNORECASE`). -/
def tryDivDeps (cs : List Char) : Option (String × List Char) :=
  match dropLitCI ("<div id=" ++ String.mk [dquoteChar] ++ "dependencies" ++ String.mk [dquoteChar]).toList cs with
  | none => none
  | some r1 =>
    match r1.dropWhile (fun c => c ≠ '>') with
    | '>' :: r2 =>
      match findUptoBy lowEq "</div>".toList (r2.length + 1) r2 with
      | some (cap, post) => some (String.mk cap, post)
      | none => none
    | _ => none

/-- One attempted match of `Requires Distributions:</h3>(.*?)</div>`
(`re.DOTALL | re.IGNORECASE`). -/
def tryReqDistHdr (cs : List Char) : Option (String × List Char) :=
  match dropLitCI "Requires Distributions:</h3>".toList cs with
  | none => none
  | some r1 =>
    match findUptoBy lowEq "</div>".toList (r1.length + 1) r1 with
    | some (cap, post) => some (String.mk cap, post)
    | none => none

/-- One attempted match of `install_requires\s*=\s*\[(.*?)\]`
(`re.DOTALL | re.IGNORECASE`). -/
def tryInstallRequires (cs : List Char) : Option (String × List Char) :=
  match dropLitCI "install_requires".toList cs with
  | none => none
  | some r1 =>
    match r1.dropWhile pySpace with
    | '=' :: r2 =>
      match r2.dropWhile pySpace with
      | '[' :: r3 =>
        let cap := r3.takeWhile (fun c => c ≠ ']')
        match r3.dropWhile (fun c => c ≠ ']') with
        | ']' :: r4 => some (String.mk cap, r4)
        | _ => none
      | _ => none
    | _ => none

/-- One attempted match of `install_requires\s*=\s*\[(.*?)\]` with
`re.DOTALL` only — case-sensitive, as compiled at source line 282 for the
fixture `setup.py` files (unlike the HTML pattern, no `re.IGNORECASE`). -/
def tryInstallRequiresCS (cs : List Char) : Option (String × List Char) :=
  match dropLit "install_requires".toList cs with
  | none => none
  | some r1 =>
    match r1.dropWhile pySpace with
    | '=' :: r2 =>
      match r2.dropWhile pySpace with
      | '[' :: r3 =>
        let cap := r3.takeWhile (fun c => c ≠ ']')
        match r3.dropWhile (fun c => c ≠ ']') with
        | ']' :: r4 => some (String.mk cap, r4)
        | _ => none
      | _ => none
    | _ => none

/-- One attempted match of `<script type="application/ld\+json">(.*?)</script>`
(`re.DOTALL`, case-sensitive). -/
def tryScriptLdJson (cs : List Char) : Option (String × List Char) :=
  match dropLit ("<script type=" ++ String.mk [dquoteChar] ++ "application/ld+json" ++ String.mk [dquoteChar] ++ ">").toList cs with
  | none => none
  | some r1 =>
    match findUptoBy (fun a b => a = b) "</script>".toList (r1.length + 1) r1 with
    | some (cap, post) => some (String.mk cap, post)
    | none => none

/-- One attempted match of `"requires_dist"\s*:\s*\[(.*?)\]` (no flags, so
`.` does not match a newline: the capture must reach `]` before any `\n`). -/
def tryRequiresDistArr (cs : List Char) : Option (String × List Char) :=
  match dropLit (String.mk [dquoteChar] ++ "requires_dist" ++ String.mk [dquoteChar]).toList cs with
  | none => none
  | some r1 =>
    match r1.dropWhile pySpace with
    | ':' :: r2 =>
      match r2.dropWhile pySpace with
      | '[' :: r3 =>
        let cap := r3.takeWhile (fun c => c ≠ ']' && c ≠ '\n')
        match r3.dropWhile (fun c => c ≠ ']' && c ≠ '\n') with
        | ']' :: r4 => some (String.mk cap, r4)
        | _ => none
      | _ => none
    | _ => none

/-- Lexicographic code-point comparison of character lists: the order
used by Python `sorted` on strings. -/
def charListLe : List Char → List Char → Bool
  | [], _ => true
  | _ :: _, [] => false
  | a :: as, b :: bs => if a < b then true else if b < a then false else charListLe as bs

/-- Lexicographic code-point comparison of strings. -/
def strLe (a b : String) : Bool := charListLe a.toList b.toList

/-- Python `sorted(list(set(xs)))`: the distinct elements of `xs` in
ascending lexicographic order (the enumeration order of the set is
irrelevant because the result is sorted). -/
def sortedSet (xs : List String) : List String :=
  List.insertionSort (fun a b => strLe a b = true) xs.dedup

/-- `DependencyVisualizer.extract_dependencies_from_html`: run the three
block patterns over the page, capture quoted names inside each matched
block, and return `sorted(list(set(...)))`. -/
def extract_dependencies_from_html (html : String) : List String :=
  let cs := html.toList
  let fuel := cs.length + 1
  let blocks := scanWith tryDivDeps fuel cs ++ scanWith tryReqDistHdr fuel cs ++
    scanWith tryInstallRequires fuel cs
  sortedSet (blocks.flatMap (fun m => scanWith tryQuoted (m.toList.length + 1) m.toList))

/-- `DependencyVisualizer.parse_requires_dist`: extract `ld+json` script
blocks, then `requires_dist` arrays, then leading package names, and
return `sorted(list(set(...)))`. -/
def parse_requires_dist (html : String) : List String :=
  let cs := html.toList
  let jsons := scanWith tryScriptLdJson (cs.length + 1) cs
  sortedSet (jsons.flatMap (fun j =>
    (scanWith tryRequiresDistArr (j.toList.length + 1) j.toList).flatMap (fun r =>
      scanWith tryJsonName (r.toList.length + 1) r.toList)))

/-- A value appearing in a parsed YAML configuration mapping, as Python
sees it: a string, an int, a bool (in Python a `bool` is also an `int`),
or anything else. -/
inductive YValue where
  | str (s : String)
  | int (n : Int)
  | bool (b : Bool)
  | other
deriving DecidableEq, Repr

/-- `isinstance(x, int)` for a YAML value: Python bools are ints
(`True == 1`, `False == 0`). -/
def yIsInt : YValue → Option Int
  | .int n => some n
  | .bool b => some (if b then 1 else 0)
  | _ => none

/-- The parsed YAML mapping handed to `_validate_and_apply_config`:
`none` for a field models `key not in loaded_config`. -/
structure LoadedConfig where
  package_name : Option YValue
  repository_url : Option YValue
  test_repository_path : Option YValue
  test_mode : Option YValue
  max_depth : Option YValue
  filter_substring : Option YValue
deriving DecidableEq, Repr

/-- A loaded YAML mapping with every recognized key absent. -/
def emptyLoaded : LoadedConfig := ⟨none, none, none, none, none, none⟩

/-- `self.config`: the applied configuration of the visualizer. -/
structure Config where
  package_name : String
  repository_url : String
  test_repository_path : String
  test_mode : Bool
  max_depth : Int
  filter_substring : String
deriving DecidableEq, Repr

/-- `DependencyVisualizer.default_config` (also the initial `self.config`). -/
def default_config : Config :=
  ⟨"requests", "https://pypi.org/simple/", "./test_repo", false, 3, ""⟩

/-- The `package_name` block of `_validate_and_apply_config`. -/
def applyPackageName (cur : Config) (v : Option YValue) : Except String Config :=
  match v with
  | none => .ok cur
  | some (.str s) =>
    if pyStrip s = "" then .error "package_name не может быть пустым"
    else .ok { cur with package_name := pyStrip s }
  | some _ => .error "package_name должен быть строкой"

/-- The `repository_url` block of `_validate_and_apply_config`. -/
def applyRepositoryUrl (cur : Config) (v : Option YValue) : Except String Config :=
  match v with
  | none => .ok cur
  | some (.str s) =>
    if s ≠ "" && !((dropLit "http://".toList s.toList).isSome
        || (dropLit "https://".toList s.toList).isSome) then
      .error "repository_url должен начинаться с http:// или https://"
    else .ok { cur with repository_url := pyRStrip s }
  | some _ => .error "repository_url должен быть строкой"

/-- The `test_repository_path` block of `_validate_and_apply_config`;
`pathExists` models `os.path.exists`. -/
def applyTestRepositoryPath (pathExists : String → Bool) (cur : Config) (v : Option YValue) :
    Except String Config :=
  match v with
  | none => .ok cur
  | some (.str s) =>
    if s ≠ "" && !pathExists s then
      .error ("test_repository_path не существует: " ++ s)
    else .ok { cur with test_repository_path := s }
  | some _ => .error "test_repository_path должен быть строкой"

/-- The `test_mode` block of `_validate_and_apply_config`. -/
def applyTestMode (cur : Config) (v : Option YValue) : Except String Config :=
  match v with
  | none => .ok cur
  | some (.bool b) => .ok { cur with test_mode := b }
  | some _ => .error "test_mode должен быть булевым значением"

/-- The `max_depth` block of `_validate_and_apply_config`. -/
def applyMaxDepth (cur : Config) (v : Option YValue) : Except String Config :=
  match v with
  | none => .ok cur
  | some y =>
    match yIsInt y with
    | none => .error "max_depth должен быть целым числом"
    | some n =>
      if n < 1 then .error "max_depth должен быть положительным числом"
      else if n > 10 then .error "max_depth не может превышать 10"
      else .ok { cur with max_depth := n }

/-- The `filter_substring` block of `_validate_and_apply_config`. -/
def applyFilterSubstring (cur : Config) (v : Option YValue) : Except String Config :=
  match v with
  | none => .ok cur
  | some (.str s) => .ok { cur with filter_substring := s }
  | some _ => .error "filter_substring должен быть строкой"

/-- The final mode-consistency checks of `_validate_and_apply_config`. -/
def checkModeConsistency (cur : Config) : Except String Config :=
  if cur.test_mode && cur.test_repository_path == "" then
    .error "В режиме test_mode должен быть указан test_repository_path"
  else if !cur.test_mode && cur.repository_url == "" then
    .error "В обычном режиме должен быть указан repository_url"
  else .ok cur

/-- `DependencyVisualizer._validate_and_apply_config`: validate every
recognized field on a copy of the current configuration, raising
(`Except.error`) at the first failure; the caller commits the result only
on success. -/
def validateAndApplyConfig (pathExists : String → Bool) (cfg : Config) (lc : LoadedConfig) :
    Except String Config := do
  let c1 ← applyPackageName cfg lc.package_name
  let c2 ← applyRepositoryUrl c1 lc.repository_url
  let c3 ← applyTestRepositoryPath pathExists c2 lc.test_repository_path
  let c4 ← applyTestMode c3 lc.test_mode
  let c5 ← applyMaxDepth c4 lc.max_depth
  let c6 ← applyFilterSubstring c5 lc.filter_substring
  checkModeConsistency c6

/-- Python `s.endswith(pat)` on character lists. -/
def hasSuffixCL (pat : List Char) : List Char → Bool
  | [] => pat.isEmpty
  | c :: rest => decide (c :: rest = pat) || hasSuffixCL pat rest

/-- Outcome of reading and parsing the YAML file in `load_config`:
a `yaml.YAMLError`, a `None` document, or a parsed mapping. -/
inductive YamlDoc where
  | yamlErr (msg : String)
  | empty
  | dict (lc : LoadedConfig)

/-- Observable result of `DependencyVisualizer.load_config`: the returned
boolean, the configuration of the visualizer afterwards, and the error message
printed on failure. -/
structure LoadResult where
  ok : Bool
  config : Config
  message : Option String
deriving DecidableEq

/-- `DependencyVisualizer.load_config`: file-existence and extension
checks, YAML parse, then validation; every failure is caught, printed and
reported as `False`, leaving `self.config` untouched. -/
def load_config (pathIsFile : Bool) (config_path : String) (doc : YamlDoc)
    (pathExists : String → Bool) (cfg : Config) : LoadResult :=
  if !pathIsFile then
    ⟨false, cfg, some ("Ошибка загрузки конфигурации: Конфигурационный файл не найден: " ++ config_path)⟩
  else if !(hasSuffixCL (lowerStr ".yaml") (lowerStr config_path)
      || hasSuffixCL (lowerStr ".yml") (lowerStr config_path)) then
    ⟨false, cfg, some ("Ошибка загрузки конфигурации: Неверное расширение файла: " ++ config_path ++ ". Ожидается .yaml или .yml")⟩
  else
    match doc with
    | .yamlErr m => ⟨false, cfg, some ("Ошибка синтаксиса YAML: " ++ m)⟩
    | .empty =>
      ⟨false, cfg, some "Ошибка загрузки конфигурации: Конфигурационный файл пуст или содержит неверный YAML"⟩
    | .dict lc =>
      match validateAndApplyConfig pathExists cfg lc with
      | .error m => ⟨false, cfg, some ("Ошибка загрузки конфигурации: " ++ m)⟩
      | .ok c => ⟨true, c, none⟩

/-- Outcome of the HTTP request inside `fetch_package_page`: a 200
response body, a non-200 status, an `HTTPError`, a `URLError`, or any
other exception. -/
inductive FetchOutcome where
  | success (body : String)
  | httpStatus (code : Nat)
  | httpError (code : Nat) (reason : String)
  | urlError (reason : String)
  | otherError (msg : String)

/-- `DependencyVisualizer.fetch_package_page`: returns the page body only
for a 200 response; every failure is caught (printed) and becomes `None`. -/
def fetch_package_page : FetchOutcome → Option String
  | .success body => some body
  | _ => none

/-- `DependencyVisualizer.analyze_test_repository`: read every `setup.py`
found under `test_repository_path` (`files` holds the content of each file,
`none` when reading it raised and was caught), collect
`install_requires` names, and return `sorted(list(set(...)))`.  The
`package_name` argument is never consulted. -/
def analyze_test_repository (files : List (Option String)) (package_name : String) :
    List String :=
  sortedSet (files.flatMap (fun f =>
    match f with
    | none => []
    | some content =>
      (scanWith tryInstallRequiresCS (content.toList.length + 1) content.toList).flatMap
        (fun m => scanWith tryQuoted (m.toList.length + 1) m.toList)))

/-- Contiguous-substring test on character lists (Python `in` on strings). -/
def hasInfix (pat : List Char) : List Char → Bool
  | [] => (dropLit pat []).isSome
  | c :: rest => (dropLit pat (c :: rest)).isSome || hasInfix pat rest

/-- Case-insensitive Python substring test `a.lower() in b.lower()`. -/
def containsCI (a b : String) : Bool :=
  hasInfix (lowerStr a) (lowerStr b)

/-- `DependencyVisualizer.get_direct_dependencies`.  `setList` models the
enumeration `list(set(xs))` of a Python set in one process (a permutation of
the distinct elements, fixed for one interpreter process); `fetchOutcome`
models the network per package; `files` models the fixture tree. -/
def get_direct_dependencies (cfg : Config) (setList : List String → List String)
    (fetchOutcome : String → FetchOutcome) (files : List (Option String))
    (package_name : String) : List String :=
  if package_name = "" then []
  else if cfg.test_mode then analyze_test_repository files package_name
  else
    match fetch_package_page (fetchOutcome package_name) with
    | some html =>
      if html = "" then []
      else
        let deps1 := extract_dependencies_from_html html
        let deps2 := parse_requires_dist html
        let all_deps := setList (deps1 ++ deps2)
        if cfg.filter_substring ≠ "" then
          all_deps.filter (fun dep => containsCI cfg.filter_substring dep)
        else all_deps
    | none => []

/-- Observable outcome of `DependencyVisualizer.run_cli`. -/
inductive CliOutcome where
  | usage
  | interactive
  | configFail (message : Option String)
  | analysis (cfg : Config) (deps : List String)
deriving DecidableEq

/-- `DependencyVisualizer.run_cli` over `sys.argv`: wrong arity prints
usage and exits; `--interactive` enters the menu; otherwise the
configuration is loaded (failure exits before any analysis stage), then
stage 1 prints the configuration and stage 2 collects and prints the
direct dependencies of the configured package. -/
def run_cli (argv : List String) (pathIsFile : String → Bool) (docOf : String → YamlDoc)
    (pathExists : String → Bool) (setList : List String → List String)
    (fetchOutcome : String → FetchOutcome) (files : List (Option String))
    (cfg0 : Config) : CliOutcome :=
  match argv with
  | [_prog, config_file] =>
    if config_file = "--interactive" then .interactive
    else
      let r := load_config (pathIsFile config_file) config_file (docOf config_file) pathExists cfg0
      if r.ok then
        .analysis r.config
          (get_direct_dependencies r.config setList fetchOutcome files r.config.package_name)
      else .configFail r.message
  | _ => .usage

/-! ## Topological sorter

Modelled from the spec: the source of the repository contains no Topological
Sorter (only configuration and direct-dependency collection are
implemented), so `topoSort` below is built from §4.3 of the specification:
the algorithm of Kahn over the dependency graph, under the recommended
directionality contract — a package appears in `Order` only after every
package it depends on has already appeared.  A node is therefore ready
once all of its direct dependencies are ordered; nodes never becoming
ready are the excluded ones. -/

/-- A dependency graph: each key maps to its direct dependencies. -/
abbrev Graph := List (String × List String)

/-- Direct dependencies of `n` in `g` (empty for absent keys). -/
def succs (g : Graph) (n : String) : List String := (g.lookup n).getD []

/-- Modelled from the spec: a node is ready for the Kahn algorithm once all
of its direct dependencies have been emitted. -/
def readyNode (g : Graph) (ordered : List String) (n : String) : Bool :=
  (succs g n).all (fun d => ordered.contains d)

/-- Modelled from the spec: the Kahn loop — repeatedly move the first
ready node (in the deterministic order of `remaining`) from `remaining`
to the end of `ordered`; stop when no node is ready. -/
def kahnLoop (g : Graph) : Nat → List String → List String → List String × List String
  | 0, ordered, remaining => (ordered, remaining)
  | fuel + 1, ordered, remaining =>
    match remaining.find? (readyNode g ordered) with
    | none => (ordered, remaining)
    | some n => kahnLoop g fuel (ordered ++ [n]) (remaining.erase n)

/-- Modelled from the spec: `TopoSort(graph, allNodes) -> (Order, Excluded)`
— seed the node list in deterministic lexicographic order and run the Kahn
algorithm; the leftover nodes are the excluded ones. -/
def topoSort (g : Graph) (allNodes : List String) : List String × List String :=
  let nodes := List.insertionSort (fun a b => strLe a b = true) allNodes
  kahnLoop g nodes.length [] nodes

/-- The edge relation of a graph: `Edge g u v` holds when `u` directly
depends on `v`. -/
def Edge (g : Graph) (u v : String) : Prop := v ∈ succs g u

/-- `n` has a (possibly empty) path of dependency edges into a cycle. -/
def ReachesCycle (g : Graph) (n : String) : Prop :=
  ∃ c, Relation.ReflTransGen (Edge g) n c ∧ Relation.TransGen (Edge g) c c

/-- An order is Kahn-consistent: the direct dependencies of each emitted node
appear strictly earlier. -/
def GoodOrder (g : Graph) (ord : List String) : Prop :=
  ∀ i (hi : i < ord.length), ∀ v ∈ succs g (ord.get ⟨i, hi⟩), v ∈ ord.take i

/-! ## Order facts about the lexicographic comparator -/

theorem charListLe_iff_not_lex (a b : List Char) :
    charListLe a b = true ↔ ¬ List.Lex (· < ·) b a := by
  induction a generalizing b with
  | nil =>
    simp only [charListLe]
    exact iff_of_true trivial (List.Lex.not_nil_right _ _)
  | cons x xs ih =>
    cases b with
    | nil =>
      simp only [charListLe, Bool.false_eq_true, false_iff, not_not]
      exact List.Lex.nil
    | cons y ys =>
      by_cases hxy : x < y
      · simp only [charListLe, if_pos hxy, true_iff]
        intro hl
        cases hl with
        | cons h => exact absurd hxy (lt_irrefl _)
        | rel h => exact absurd (lt_trans hxy h) (lt_irrefl _)
      · by_cases hyx : y < x
        · simp only [charListLe, if_neg hxy, if_pos hyx, Bool.false_eq_true, false_iff, not_not]
          exact List.Lex.rel hyx
        · have heq : x = y := le_antisymm (not_lt.1 hyx) (not_lt.1 hxy)
          subst heq
          simp only [charListLe, if_neg hxy, if_neg hyx]
          rw [List.Lex.cons_iff]
          exact ih ys

theorem strLe_iff (a b : String) : strLe a b = true ↔ a ≤ b := by
  rw [String.le_iff_toList_le, ← not_lt]
  exact charListLe_iff_not_lex a.toList b.toList

theorem strLe_trans : ∀ a b c : String, strLe a b = true → strLe b c = true →
    strLe a c = true :=
  fun a b c h1 h2 =>
    (strLe_iff a c).2 (le_trans ((strLe_iff a b).1 h1) ((strLe_iff b c).1 h2))

theorem strLe_total : ∀ a b : String, (strLe a b || strLe b a) = true := by
  intro a b
  rcases le_total a b with h | h
  · simp [(strLe_iff a b).2 h]
  · simp [(strLe_iff b a).2 h]

theorem sortedSet_sorted (xs : List String) : (sortedSet xs).Sorted (· ≤ ·) := by
  haveI : IsTotal String (fun a b => strLe a b = true) := ⟨fun a b => by
    rcases le_total a b with h | h
    · exact Or.inl ((strLe_iff a b).2 h)
    · exact Or.inr ((strLe_iff b a).2 h)⟩
  haveI : IsTrans String (fun a b => strLe a b = true) := ⟨fun a b c => strLe_trans a b c⟩
  have h := List.sorted_insertionSort (fun a b => strLe a b = true) xs.dedup
  exact List.Pairwise.imp (fun hab => (strLe_iff _ _).1 hab) h

theorem sortedSet_nodup (xs : List String) : (sortedSet xs).Nodup :=
  (List.perm_insertionSort (fun a b => strLe a b = true) xs.dedup).symm.nodup
    (List.nodup_dedup xs)

/-! ## Claim theorems: dependency extraction -/

/-- C10: each individual extraction routine returns a duplicate-free list
sorted in ascending lexicographic order — for every input text,
`extract_dependencies_from_html`, `parse_requires_dist` and
`analyze_test_repository` each return a sorted list with no repeats. -/
theorem extraction_routines_sorted_nodup (html : String) (files : List (Option String))
    (pn : String) :
    ((extract_dependencies_from_html html).Sorted (· ≤ ·)
      ∧ (extract_dependencies_from_html html).Nodup)
    ∧ ((parse_requires_dist html).Sorted (· ≤ ·) ∧ (parse_requires_dist html).Nodup)
    ∧ ((analyze_test_repository files pn).Sorted (· ≤ ·)
      ∧ (analyze_test_repository files pn).Nodup) := by
  unfold extract_dependencies_from_html parse_requires_dist analyze_test_repository
  exact ⟨⟨sortedSet_sorted _, sortedSet_nodup _⟩, ⟨sortedSet_sorted _, sortedSet_nodup _⟩,
    ⟨sortedSet_sorted _, sortedSet_nodup _⟩⟩

/-- C8: in fixture mode the dependency lookup is independent of the
queried package name — `analyze_test_repository` scans every `setup.py`
under the fixture path and never consults its `package_name` argument, so
any two package names give the same list. -/
theorem analyze_test_repository_ignores_package_name (files : List (Option String))
    (p1 p2 : String) :
    analyze_test_repository files p1 = analyze_test_repository files p2 := rfl

/-- C6: dependency collection is deterministic and idempotent — with a
fixed configuration, a fixed set-enumeration (one interpreter process),
a fixed network behaviour and a fixed fixture tree, two invocations of
`get_direct_dependencies` on the same package name return the same list
in the same order. -/
theorem get_direct_dependencies_deterministic (cfg : Config)
    (sl : List String → List String) (fo : String → FetchOutcome)
    (files : List (Option String)) (pn : String) (r1 r2 : List String)
    (h1 : r1 = get_direct_dependencies cfg sl fo files pn)
    (h2 : r2 = get_direct_dependencies cfg sl fo files pn) : r1 = r2 :=
  h1.trans h2.symm

theorem get_direct_dependencies_deterministic_witness :
    get_direct_dependencies default_config List.eraseDups
        (fun _ => FetchOutcome.urlError "timed out") [] "requests"
      = get_direct_dependencies default_config List.eraseDups
        (fun _ => FetchOutcome.urlError "timed out") [] "requests" :=
  get_direct_dependencies_deterministic _ _ _ _ _ _ _ rfl rfl

theorem flatMap_none_nil (files : List (Option String))
    (f : String → List String) (hf : ∀ g ∈ files, g = none) :
    (files.flatMap (fun g => match g with | none => [] | some c => f c)) = [] := by
  induction files with
  | nil => rfl
  | cons g gs ih =>
    have hg := hf g (by simp)
    subst hg
    simpa using ih (fun g hgm => hf g (by simp [hgm]))

/-- C2: `get_direct_dependencies` absorbs lookup failures — it is a total
function (the embedding of code whose exception handlers return `None` or
skip the failing file), and it returns `[]` whenever the page fetch fails
(unknown package, HTTP/URL error, non-200 status), whenever the fetched
page declares no dependencies, and in fixture mode whenever every fixture
file is unreadable. -/
theorem get_direct_dependencies_absorbs_failures (cfg : Config)
    (sl : List String → List String) (fo : String → FetchOutcome)
    (files : List (Option String)) (pn : String) (hsl : sl [] = []) :
    (cfg.test_mode = false → fetch_package_page (fo pn) = none →
      get_direct_dependencies cfg sl fo files pn = [])
    ∧ (cfg.test_mode = false → ∀ body, fo pn = FetchOutcome.success body →
      extract_dependencies_from_html body = [] → parse_requires_dist body = [] →
      get_direct_dependencies cfg sl fo files pn = [])
    ∧ (cfg.test_mode = true → (∀ g ∈ files, g = none) →
      get_direct_dependencies cfg sl fo files pn = []) := by
  refine ⟨fun hm hf => ?_, fun hm body hb he hp => ?_, fun hm hnone => ?_⟩
  · by_cases hpn : pn = "" <;> simp [get_direct_dependencies, hpn, hm, hf]
  · by_cases hpn : pn = ""
    · simp [get_direct_dependencies, hpn]
    · by_cases hbody : body = ""
      · simp [get_direct_dependencies, hpn, hm, hb, fetch_package_page, hbody]
      · simp only [get_direct_dependencies, if_neg hpn, hm, Bool.false_eq_true, if_false,
          hb, fetch_package_page, if_neg hbody, he, hp, List.nil_append, hsl]
        by_cases hfs : cfg.filter_substring ≠ "" <;> simp [hfs]
  · by_cases hpn : pn = ""
    · simp [get_direct_dependencies, hpn]
    · simp only [get_direct_dependencies, if_neg hpn, hm, if_true,
        analyze_test_repository]
      rw [flatMap_none_nil files _ hnone]
      rfl

theorem get_direct_dependencies_absorbs_failures_witness :
    (get_direct_dependencies default_config List.eraseDups
      (fun _ => FetchOutcome.httpError 404 "Not Found") [] "unknown-package" = [])
    ∧ (get_direct_dependencies default_config List.eraseDups
      (fun _ => FetchOutcome.success "<html>no deps</html>") [] "leaf-package" = [])
    ∧ (get_direct_dependencies { default_config with test_mode := true } List.eraseDups
      (fun _ => FetchOutcome.urlError "offline") [none, none] "requests" = []) :=
  ⟨(get_direct_dependencies_absorbs_failures default_config List.eraseDups
      (fun _ => FetchOutcome.httpError 404 "Not Found") [] "unknown-package" rfl).1
      rfl rfl,
   (get_direct_dependencies_absorbs_failures default_config List.eraseDups
      (fun _ => FetchOutcome.success "<html>no deps</html>") [] "leaf-package" rfl).2.1
      rfl "<html>no deps</html>" rfl (by rfl) (by rfl),
   (get_direct_dependencies_absorbs_failures { default_config with test_mode := true }
      List.eraseDups (fun _ => FetchOutcome.urlError "offline") [none, none] "requests"
      rfl).2.2 rfl (by decide)⟩

/-- C1 counterexample: with `filter_substring = "x"` and a fetched page
declaring the dependency set `{"box", "cat"}`, `get_direct_dependencies`
returns `["box"]` — the name that CONTAINS the filter is the one kept, so
the claim that names containing the filter are excluded is false. -/
theorem filter_excludes_counterexample :
    get_direct_dependencies { default_config with filter_substring := "x" }
        List.eraseDups
        (fun _ => FetchOutcome.success "install_requires = [\"box\", \"cat\"]")
        [] "pkg"
      = ["box"]
    ∧ containsCI "x" "box" = true := by
  constructor
  · rfl
  · rfl

/-- C1 amended: for a non-empty `filter_substring` the filter acts as an
inclusion filter in network mode — the returned list is exactly the
candidate pool (the enumerated union of the two extractions) restricted
to the names that contain the filter case-insensitively, so every
returned name contains the filter and every candidate containing it is
returned — and in fixture (test) mode the filter is not applied at all. -/
theorem filter_keeps_matching_names (cfg : Config) (sl : List String → List String)
    (fo : String → FetchOutcome) (files : List (Option String)) (pn : String)
    (hf : cfg.filter_substring ≠ "") :
    (cfg.test_mode = false → pn ≠ "" →
      ∀ html, fo pn = FetchOutcome.success html → html ≠ "" →
      get_direct_dependencies cfg sl fo files pn
        = (sl (extract_dependencies_from_html html ++ parse_requires_dist html)).filter
            (fun dep => containsCI cfg.filter_substring dep))
    ∧ (cfg.test_mode = false →
      ∀ dep ∈ get_direct_dependencies cfg sl fo files pn,
        containsCI cfg.filter_substring dep = true)
    ∧ (cfg.test_mode = true → pn ≠ "" →
      get_direct_dependencies cfg sl fo files pn = analyze_test_repository files pn) := by
  refine ⟨?_, ?_, ?_⟩
  · intro hm hpn html hfo hb
    simp only [get_direct_dependencies, if_neg hpn, hm, Bool.false_eq_true, if_false,
      hfo, fetch_package_page, if_neg hb, if_pos hf]
  · intro hm dep hdep
    by_cases hpn : pn = ""
    · simp [get_direct_dependencies, hpn] at hdep
    · simp only [get_direct_dependencies, if_neg hpn, hm, Bool.false_eq_true, if_false] at hdep
      cases hfetch : fetch_package_page (fo pn) with
      | none => rw [hfetch] at hdep; simp at hdep
      | some html =>
        rw [hfetch] at hdep
        by_cases hb : html = ""
        · simp [hb] at hdep
        · simp only [if_neg hb, if_pos hf] at hdep
          exact (List.mem_filter.1 hdep).2
  · intro hm hpn
    simp [get_direct_dependencies, hpn, hm]

theorem filter_keeps_matching_names_witness :
    (get_direct_dependencies { default_config with filter_substring := "x" }
        List.eraseDups
        (fun _ => FetchOutcome.success "install_requires = [\"box\", \"cat\"]") [] "pkg"
      = (List.eraseDups
          (extract_dependencies_from_html "install_requires = [\"box\", \"cat\"]"
            ++ parse_requires_dist "install_requires = [\"box\", \"cat\"]")).filter
          (fun dep => containsCI "x" dep))
    ∧ ("box" ∈ get_direct_dependencies { default_config with filter_substring := "x" }
        List.eraseDups
        (fun _ => FetchOutcome.success "install_requires = [\"box\", \"cat\"]") [] "pkg"
      → containsCI "x" "box" = true)
    ∧ get_direct_dependencies
        { default_config with filter_substring := "x", test_mode := true }
        List.eraseDups (fun _ => FetchOutcome.urlError "offline")
        [some "install_requires = [\"box\", \"cat\"]"] "pkg"
      = analyze_test_repository [some "install_requires = [\"box\", \"cat\"]"] "pkg" :=
  ⟨(filter_keeps_matching_names { default_config with filter_substring := "x" }
      List.eraseDups
      (fun _ => FetchOutcome.success "install_requires = [\"box\", \"cat\"]") [] "pkg"
      (by decide)).1 rfl (by decide) "install_requires = [\"box\", \"cat\"]" rfl (by decide),
   fun hmem =>
    (filter_keeps_matching_names { default_config with filter_substring := "x" }
      List.eraseDups
      (fun _ => FetchOutcome.success "install_requires = [\"box\", \"cat\"]") [] "pkg"
      (by decide)).2.1 rfl "box" hmem,
   (filter_keeps_matching_names
      { default_config with filter_substring := "x", test_mode := true }
      List.eraseDups (fun _ => FetchOutcome.urlError "offline")
      [some "install_requires = [\"box\", \"cat\"]"] "pkg"
      (by decide)).2.2 rfl (by decide)⟩

/-! ## Claim theorems: configuration validation -/

theorem bindE_error (e : String) (f : Config → Except String Config) :
    (Except.error e >>= f : Except String Config) = Except.error e := rfl

theorem bindE_ok (a : Config) (f : Config → Except String Config) :
    (Except.ok a >>= f : Except String Config) = f a := rfl

/-- C3 counterexample: a configuration setting `max_depth` to `0` is
rejected by validation with the positivity error, so `maxDepth == 0` is
not an accepted input and no depth-0 analysis run ever starts. -/
theorem max_depth_zero_rejected_counterexample :
    validateAndApplyConfig (fun _ => true) default_config
      ⟨none, none, none, none, some (.int 0), none⟩
      = .error "max_depth должен быть положительным числом" := by rfl

/-- C3 amended: `max_depth` must be an integer between 1 and 10 — any
loaded value below 1 (in particular 0) makes `_validate_and_apply_config`
raise, so the run is never accepted with depth 0. -/
theorem max_depth_below_one_rejected (pe : String → Bool) (cfg : Config)
    (lc : LoadedConfig) (n : Int) (hd : lc.max_depth = some (.int n)) (hn : n < 1) :
    ∀ c, validateAndApplyConfig pe cfg lc ≠ .ok c := by
  intro c h
  unfold validateAndApplyConfig at h
  cases h1 : applyPackageName cfg lc.package_name with
  | error e => rw [h1, bindE_error] at h; exact Except.noConfusion h
  | ok c1 =>
    rw [h1, bindE_ok] at h
    cases h2 : applyRepositoryUrl c1 lc.repository_url with
    | error e => rw [h2, bindE_error] at h; exact Except.noConfusion h
    | ok c2 =>
      rw [h2, bindE_ok] at h
      cases h3 : applyTestRepositoryPath pe c2 lc.test_repository_path with
      | error e => rw [h3, bindE_error] at h; exact Except.noConfusion h
      | ok c3 =>
        rw [h3, bindE_ok] at h
        cases h4 : applyTestMode c3 lc.test_mode with
        | error e => rw [h4, bindE_error] at h; exact Except.noConfusion h
        | ok c4 =>
          rw [h4, bindE_ok] at h
          have h5 : applyMaxDepth c4 lc.max_depth
              = .error "max_depth должен быть положительным числом" := by
            rw [hd]
            simp only [applyMaxDepth, yIsInt]
            rw [if_pos hn]
          rw [h5, bindE_error] at h
          exact Except.noConfusion h

theorem max_depth_below_one_rejected_witness :
    validateAndApplyConfig (fun _ => true) default_config
      ⟨none, none, none, none, some (.int 0), none⟩ ≠ .ok default_config :=
  max_depth_below_one_rejected (fun _ => true) default_config
    ⟨none, none, none, none, some (.int 0), none⟩ 0 rfl (by decide) default_config

theorem applyRepositoryUrl_preserves_pn {cur c : Config} {v : Option YValue}
    (h : applyRepositoryUrl cur v = .ok c) : c.package_name = cur.package_name := by
  cases v with
  | none => cases h; rfl
  | some y =>
    cases y with
    | str s =>
      simp only [applyRepositoryUrl] at h
      split at h
      · exact Except.noConfusion h
      · cases h; rfl
    | int n => exact Except.noConfusion h
    | bool b => exact Except.noConfusion h
    | other => exact Except.noConfusion h

theorem applyTestRepositoryPath_preserves_pn {pe : String → Bool} {cur c : Config}
    {v : Option YValue} (h : applyTestRepositoryPath pe cur v = .ok c) :
    c.package_name = cur.package_name := by
  cases v with
  | none => cases h; rfl
  | some y =>
    cases y with
    | str s =>
      simp only [applyTestRepositoryPath] at h
      split at h
      · exact Except.noConfusion h
      · cases h; rfl
    | int n => exact Except.noConfusion h
    | bool b => exact Except.noConfusion h
    | other => exact Except.noConfusion h

theorem applyTestMode_preserves_pn {cur c : Config} {v : Option YValue}
    (h : applyTestMode cur v = .ok c) : c.package_name = cur.package_name := by
  cases v with
  | none => cases h; rfl
  | some y =>
    cases y with
    | str s => exact Except.noConfusion h
    | int n => exact Except.noConfusion h
    | bool b => cases h; rfl
    | other => exact Except.noConfusion h

theorem applyMaxDepth_preserves_pn {cur c : Config} {v : Option YValue}
    (h : applyMaxDepth cur v = .ok c) : c.package_name = cur.package_name := by
  cases v with
  | none => cases h; rfl
  | some y =>
    simp only [applyMaxDepth] at h
    split at h
    · exact Except.noConfusion h
    · split at h
      · exact Except.noConfusion h
      · split at h
        · exact Except.noConfusion h
        · cases h; rfl

theorem applyFilterSubstring_preserves_pn {cur c : Config} {v : Option YValue}
    (h : applyFilterSubstring cur v = .ok c) : c.package_name = cur.package_name := by
  cases v with
  | none => cases h; rfl
  | some y =>
    cases y with
    | str s => cases h; rfl
    | int n => exact Except.noConfusion h
    | bool b => exact Except.noConfusion h
    | other => exact Except.noConfusion h

theorem checkModeConsistency_preserves {cur c : Config}
    (h : checkModeConsistency cur = .ok c) : c = cur := by
  unfold checkModeConsistency at h
  split at h
  · exact Except.noConfusion h
  · split at h
    · exact Except.noConfusion h
    · cases h; rfl

/-- C7 counterexample: a configuration that omits `package_name` entirely
is accepted by `_validate_and_apply_config` (the previous/default value
`requests` is silently kept), so omission of `package_name` does not fail
the load and the run proceeds. -/
theorem package_name_omitted_accepted_counterexample :
    validateAndApplyConfig (fun _ => true) default_config emptyLoaded = .ok default_config
    ∧ emptyLoaded.package_name = none := ⟨by rfl, rfl⟩

/-- C7 amended: `package_name` is validated only when the key is present —
a present non-string value or a value that is empty after stripping makes
the load fail, while an absent key is silently accepted and the previously
applied (default) `package_name` is kept. -/
theorem package_name_validation (pe : String → Bool) (cfg : Config) (lc : LoadedConfig) :
    (∀ s, lc.package_name = some (.str s) → pyStrip s = "" →
      ∀ c, validateAndApplyConfig pe cfg lc ≠ .ok c)
    ∧ (∀ y, lc.package_name = some y → (∀ s, y ≠ .str s) →
      ∀ c, validateAndApplyConfig pe cfg lc ≠ .ok c)
    ∧ (lc.package_name = none →
      ∀ c, validateAndApplyConfig pe cfg lc = .ok c →
        c.package_name = cfg.package_name) := by
  refine ⟨fun s hs hstrip c h => ?_, fun y hy hnot c h => ?_, fun hnone c h => ?_⟩
  · unfold validateAndApplyConfig at h
    rw [hs] at h
    have h1 : applyPackageName cfg (some (.str s))
        = .error "package_name не может быть пустым" := by
      simp only [applyPackageName]
      rw [if_pos hstrip]
    rw [h1, bindE_error] at h
    exact Except.noConfusion h
  · unfold validateAndApplyConfig at h
    rw [hy] at h
    have h1 : applyPackageName cfg (some y)
        = .error "package_name должен быть строкой" := by
      cases y with
      | str s => exact absurd rfl (hnot s)
      | int n => rfl
      | bool b => rfl
      | other => rfl
    rw [h1, bindE_error] at h
    exact Except.noConfusion h
  · unfold validateAndApplyConfig at h
    rw [hnone] at h
    rw [show applyPackageName cfg none = .ok cfg from rfl, bindE_ok] at h
    cases h2 : applyRepositoryUrl cfg lc.repository_url with
    | error e => rw [h2, bindE_error] at h; exact Except.noConfusion h
    | ok c2 =>
      rw [h2, bindE_ok] at h
      cases h3 : applyTestRepositoryPath pe c2 lc.test_repository_path with
      | error e => rw [h3, bindE_error] at h; exact Except.noConfusion h
      | ok c3 =>
        rw [h3, bindE_ok] at h
        cases h4 : applyTestMode c3 lc.test_mode with
        | error e => rw [h4, bindE_error] at h; exact Except.noConfusion h
        | ok c4 =>
          rw [h4, bindE_ok] at h
          cases h5 : applyMaxDepth c4 lc.max_depth with
          | error e => rw [h5, bindE_error] at h; exact Except.noConfusion h
          | ok c5 =>
            rw [h5, bindE_ok] at h
            cases h6 : applyFilterSubstring c5 lc.filter_substring with
            | error e => rw [h6, bindE_error] at h; exact Except.noConfusion h
            | ok c6 =>
              rw [h6, bindE_ok] at h
              rw [checkModeConsistency_preserves h,
                applyFilterSubstring_preserves_pn h6, applyMaxDepth_preserves_pn h5,
                applyTestMode_preserves_pn h4, applyTestRepositoryPath_preserves_pn h3,
                applyRepositoryUrl_preserves_pn h2]

theorem package_name_validation_witness :
    (validateAndApplyConfig (fun _ => true) default_config
      ⟨some (.str "   "), none, none, none, none, none⟩ ≠ .ok default_config)
    ∧ (validateAndApplyConfig (fun _ => true) default_config
      ⟨some (.int 5), none, none, none, none, none⟩ ≠ .ok default_config)
    ∧ (default_config.package_name = default_config.package_name) :=
  ⟨(package_name_validation (fun _ => true) default_config
      ⟨some (.str "   "), none, none, none, none, none⟩).1 "   " rfl (by rfl) default_config,
   (package_name_validation (fun _ => true) default_config
      ⟨some (.int 5), none, none, none, none, none⟩).2.1 (.int 5) rfl
      (fun s h => YValue.noConfusion h) default_config,
   (package_name_validation (fun _ => true) default_config emptyLoaded).2.2 rfl
      default_config (by rfl)⟩

/-- C9: configuration updates are atomic — whenever `load_config` reports
failure (missing file, bad extension, YAML error, empty document, or any
validation error raised by `_validate_and_apply_config`), the applied
configuration afterwards is exactly the configuration from before the
call; a failed load never partially applies fields. -/
theorem load_config_failure_atomic (pathIsFile : Bool) (config_path : String)
    (doc : YamlDoc) (pe : String → Bool) (cfg : Config)
    (h : (load_config pathIsFile config_path doc pe cfg).ok = false) :
    (load_config pathIsFile config_path doc pe cfg).config = cfg := by
  have hor : (load_config pathIsFile config_path doc pe cfg).ok = true
      ∨ (load_config pathIsFile config_path doc pe cfg).config = cfg := by
    unfold load_config
    split
    · right; rfl
    · split
      · right; rfl
      · cases doc with
        | yamlErr m => right; rfl
        | empty => right; rfl
        | dict lc =>
          simp only
          split
          · right; rfl
          · left; rfl
  rcases hor with hok | hcfg
  · rw [hok] at h; exact Bool.noConfusion h
  · exact hcfg

theorem load_config_failure_atomic_witness :
    ((load_config true "conf.yaml"
        (.dict ⟨some (.int 7), none, none, none, none, none⟩)
        (fun _ => true) default_config).ok = false)
    ∧ (load_config true "conf.yaml"
        (.dict ⟨some (.int 7), none, none, none, none, none⟩)
        (fun _ => true) default_config).config = default_config :=
  ⟨by rfl,
   load_config_failure_atomic true "conf.yaml"
     (.dict ⟨some (.int 7), none, none, none, none, none⟩)
     (fun _ => true) default_config (by rfl)⟩

/-- C5: a configuration error is fatal before any traversal — when
`load_config` fails (its message is the field-specific validation or
parse message), `run_cli` ends in the `configFail` outcome, which runs no
analysis stage and produces no dependency output. -/
theorem run_cli_config_error_fatal (prog cf : String) (pathIsFile : String → Bool)
    (docOf : String → YamlDoc) (pe : String → Bool)
    (sl : List String → List String) (fo : String → FetchOutcome)
    (files : List (Option String)) (cfg0 : Config)
    (hcf : cf ≠ "--interactive")
    (hload : (load_config (pathIsFile cf) cf (docOf cf) pe cfg0).ok = false) :
    run_cli [prog, cf] pathIsFile docOf pe sl fo files cfg0
      = .configFail (load_config (pathIsFile cf) cf (docOf cf) pe cfg0).message := by
  simp only [run_cli]
  rw [if_neg hcf]
  simp [hload]

theorem run_cli_config_error_fatal_witness :
    run_cli ["dependency_visualizer.py", "conf.yaml"] (fun _ => true)
      (fun _ => .dict ⟨none, none, none, none, some (.int 0), none⟩)
      (fun _ => true) List.eraseDups (fun _ => FetchOutcome.urlError "offline")
      [] default_config
      = .configFail (some
        "Ошибка загрузки конфигурации: max_depth должен быть положительным числом") :=
  (run_cli_config_error_fatal "dependency_visualizer.py" "conf.yaml" (fun _ => true)
      (fun _ => .dict ⟨none, none, none, none, some (.int 0), none⟩)
      (fun _ => true) List.eraseDups (fun _ => FetchOutcome.urlError "offline")
      [] default_config (by decide) (by rfl)).trans (by rfl)

/-! ## Correctness of the topological sorter -/

theorem goodOrder_nil (g : Graph) : GoodOrder g [] := by
  intro i hi
  exact absurd hi (by simp)

theorem goodOrder_append (g : Graph) (ord : List String) (n : String)
    (hg : GoodOrder g ord) (hr : readyNode g ord n = true) :
    GoodOrder g (ord ++ [n]) := by
  intro i hi v hv
  have hlen : i < ord.length + 1 := by simpa using hi
  rcases Nat.lt_or_ge i ord.length with hlt | hge
  · have hget : (ord ++ [n]).get ⟨i, hi⟩ = ord.get ⟨i, hlt⟩ := by
      simp [List.get_eq_getElem, List.getElem_append_left hlt]
    rw [hget] at hv
    rw [List.take_append_of_le_length (le_of_lt hlt)]
    exact hg i hlt v hv
  · have hi_eq : i = ord.length := le_antisymm (Nat.le_of_lt_succ hlen) hge
    subst hi_eq
    have hget : (ord ++ [n]).get ⟨ord.length, hi⟩ = n := by
      simp [List.get_eq_getElem]
    rw [hget] at hv
    have hall := List.all_eq_true.1 hr v hv
    have hmem : v ∈ ord := List.elem_iff.1 (by simpa using hall)
    rw [List.take_append_of_le_length le_rfl, List.take_length]
    exact hmem

theorem kahnLoop_spec (g : Graph) : ∀ (fuel : Nat) (ordered remaining : List String),
    GoodOrder g ordered →
    ((kahnLoop g fuel ordered remaining).1 ++ (kahnLoop g fuel ordered remaining).2).Perm
      (ordered ++ remaining)
    ∧ GoodOrder g (kahnLoop g fuel ordered remaining).1
    ∧ (remaining.length ≤ fuel →
      ∀ n ∈ (kahnLoop g fuel ordered remaining).2,
        readyNode g (kahnLoop g fuel ordered remaining).1 n = false) := by
  intro fuel
  induction fuel with
  | zero =>
    intro ordered remaining hg
    refine ⟨by simp [kahnLoop], by simpa [kahnLoop] using hg, ?_⟩
    intro hlen n hn
    have hnil : remaining = [] := List.eq_nil_of_length_eq_zero (Nat.le_zero.1 hlen)
    subst hnil
    simp [kahnLoop] at hn
  | succ fuel ih =>
    intro ordered remaining hg
    cases hf : remaining.find? (readyNode g ordered) with
    | none =>
      have hred : kahnLoop g (fuel + 1) ordered remaining = (ordered, remaining) := by
        simp [kahnLoop, hf]
      rw [hred]
      exact ⟨List.Perm.refl _, hg, fun _ n hn => by
        simpa using List.find?_eq_none.1 hf n hn⟩
    | some n =>
      have hmemn : n ∈ remaining := List.mem_of_find?_eq_some hf
      have hready : readyNode g ordered n = true := List.find?_some hf
      have hred : kahnLoop g (fuel + 1) ordered remaining
          = kahnLoop g fuel (ordered ++ [n]) (remaining.erase n) := by
        simp [kahnLoop, hf]
      have hg2 := goodOrder_append g ordered n hg hready
      obtain ⟨hperm, hgood, hstuck⟩ := ih (ordered ++ [n]) (remaining.erase n) hg2
      rw [hred]
      refine ⟨?_, hgood, ?_⟩
      · refine hperm.trans ?_
        rw [List.append_assoc]
        exact List.Perm.append_left ordered
          (by simpa using (List.perm_cons_erase hmemn).symm)
      · intro hlen
        apply hstuck
        have h1 : (remaining.erase n).length = remaining.length - 1 :=
          List.length_erase_of_mem hmemn
        have h2 : 0 < remaining.length := List.length_pos_of_mem hmemn
        omega

theorem reachesCycle_of_closed (g : Graph) (S : List String)
    (hS : ∀ m ∈ S, ∃ d, d ∈ S ∧ Edge g m d) :
    ∀ n ∈ S, ReachesCycle g n := by
  intro n hn
  classical
  have hS2 : ∀ m : {x // x ∈ S}, ∃ d : {x // x ∈ S}, Edge g m.1 d.1 := by
    rintro ⟨m, hm⟩
    obtain ⟨d, hd, he⟩ := hS m hm
    exact ⟨⟨d, hd⟩, he⟩
  choose f hf using hS2
  let seq : Nat → {x // x ∈ S} := fun k => f^[k] ⟨n, hn⟩
  have hseq_succ : ∀ k, seq (k + 1) = f (seq k) := fun k =>
    Function.iterate_succ_apply' f k _
  have hedge : ∀ k, Edge g (seq k).1 (seq (k + 1)).1 := by
    intro k
    rw [hseq_succ k]
    exact hf (seq k)
  have hreach : ∀ k, Relation.ReflTransGen (Edge g) n (seq k).1 := by
    intro k
    induction k with
    | zero => exact Relation.ReflTransGen.refl
    | succ k ihk => exact ihk.tail (hedge k)
  have htrans : ∀ k l, k < l → Relation.TransGen (Edge g) (seq k).1 (seq l).1 := by
    intro k l hkl
    induction l with
    | zero => omega
    | succ l ihl =>
      rcases Nat.lt_or_ge k l with h | h
      · exact (ihl h).tail (hedge l)
      · have hkl2 : k = l := le_antisymm (Nat.le_of_lt_succ hkl) h
        subst hkl2
        exact Relation.TransGen.single (hedge k)
  have hmaps : ∀ i : Fin (S.length + 1), i ∈ Finset.univ → (seq i.1).1 ∈ S.toFinset :=
    fun i _ => List.mem_toFinset.2 (seq i.1).2
  have hcard : S.toFinset.card < (Finset.univ : Finset (Fin (S.length + 1))).card := by
    have := List.toFinset_card_le S
    simp only [Finset.card_univ, Fintype.card_fin]
    omega
  obtain ⟨i, -, j, -, hij, heq⟩ :=
    Finset.exists_ne_map_eq_of_card_lt_of_maps_to hcard hmaps
  rcases lt_or_gt_of_ne hij with hlt | hlt
  · refine ⟨(seq i.1).1, hreach i.1, ?_⟩
    have h2 := htrans i.1 j.1 hlt
    rw [← heq] at h2
    exact h2
  · refine ⟨(seq j.1).1, hreach j.1, ?_⟩
    have h2 := htrans j.1 i.1 hlt
    rw [heq] at h2
    exact h2

theorem goodOrder_edge_indexOf (g : Graph) (ord : List String) (hnd : ord.Nodup)
    (hg : GoodOrder g ord) {u v : String} (hu : u ∈ ord) (he : Edge g u v) :
    v ∈ ord ∧ ord.indexOf v < ord.indexOf u := by
  have hiu : ord.indexOf u < ord.length := List.indexOf_lt_length.2 hu
  have hgu : ord.get ⟨ord.indexOf u, hiu⟩ = u := by
    simp [List.get_eq_getElem, List.getElem_indexOf]
  have hv_take : v ∈ ord.take (ord.indexOf u) := by
    apply hg (ord.indexOf u) hiu
    rw [hgu]
    exact he
  have hv_mem : v ∈ ord := List.mem_of_mem_take hv_take
  obtain ⟨k, hk, hvk⟩ := List.getElem_of_mem hv_take
  have hk_lt_iu : k < ord.indexOf u := lt_of_lt_of_le hk (by
    rw [List.length_take]
    exact min_le_left _ _)
  have hk_lt : k < ord.length := lt_trans hk_lt_iu hiu
  have hvk2 : ord[k] = v := by
    rw [← hvk]
    exact (List.getElem_take ord).symm
  have hiv : ord.indexOf v < ord.length := List.indexOf_lt_length.2 hv_mem
  have hvi : ord[ord.indexOf v] = v := List.getElem_indexOf hiv
  have hidx : ord.indexOf v = k :=
    (hnd.getElem_inj_iff).1 (hvi.trans hvk2.symm)
  exact ⟨hv_mem, by omega⟩

theorem goodOrder_transGen (g : Graph) (ord : List String) (hnd : ord.Nodup)
    (hg : GoodOrder g ord) {u v : String} (ht : Relation.TransGen (Edge g) u v)
    (hu : u ∈ ord) : v ∈ ord ∧ ord.indexOf v < ord.indexOf u := by
  induction ht with
  | single h => exact goodOrder_edge_indexOf g ord hnd hg hu h
  | tail hab hbc ih =>
    obtain ⟨hb, hlt⟩ := ih
    obtain ⟨hc, hlt2⟩ := goodOrder_edge_indexOf g ord hnd hg hb hbc
    exact ⟨hc, lt_trans hlt2 hlt⟩

theorem goodOrder_reflTransGen_mem (g : Graph) (ord : List String) (hnd : ord.Nodup)
    (hg : GoodOrder g ord) {u v : String} (ht : Relation.ReflTransGen (Edge g) u v)
    (hu : u ∈ ord) : v ∈ ord := by
  induction ht with
  | refl => exact hu
  | tail hab hbc ih => exact (goodOrder_edge_indexOf g ord hnd hg ih hbc).1

theorem goodOrder_not_reachesCycle (g : Graph) (ord : List String) (hnd : ord.Nodup)
    (hg : GoodOrder g ord) {n : String} (hn : n ∈ ord) : ¬ ReachesCycle g n := by
  rintro ⟨c, hrc, hcc⟩
  have hc : c ∈ ord := goodOrder_reflTransGen_mem g ord hnd hg hrc hn
  obtain ⟨-, hlt⟩ := goodOrder_transGen g ord hnd hg hcc hc
  exact lt_irrefl _ hlt

/-- C4 (modelled from the spec, §4.3): for every finite graph and visited
set (well-formed per the Graph Builder guarantee: distinct nodes, every
edge target in the visited set), `topoSort` returns `(Order, Excluded)`
with: `Order ++ Excluded` a permutation of `allNodes` (so
`len(Order) + len(Excluded) = len(allNodes)` and the two parts are
disjoint), `Order` a valid linear extension of the acyclic subgraph under
the documented directionality contract (every direct dependency of an
emitted node appears strictly earlier), and `Excluded` exactly the set of
nodes with a path of dependency edges into a cycle. -/
theorem topoSort_spec (g : Graph) (allNodes : List String) (hnd : allNodes.Nodup)
    (hwf : ∀ n ∈ allNodes, ∀ v ∈ succs g n, v ∈ allNodes) :
    ((topoSort g allNodes).1 ++ (topoSort g allNodes).2).Perm allNodes
    ∧ (topoSort g allNodes).1.length + (topoSort g allNodes).2.length
        = allNodes.length
    ∧ (∀ i j (hi : i < (topoSort g allNodes).1.length)
        (hj : j < (topoSort g allNodes).1.length),
        Edge g ((topoSort g allNodes).1.get ⟨i, hi⟩)
          ((topoSort g allNodes).1.get ⟨j, hj⟩) → j < i)
    ∧ (∀ n ∈ allNodes, (n ∈ (topoSort g allNodes).2 ↔ ReachesCycle g n)) := by
  have hnodes_perm :
      (List.insertionSort (fun a b => strLe a b = true) allNodes).Perm allNodes :=
    List.perm_insertionSort _ _
  set nodes := List.insertionSort (fun a b => strLe a b = true) allNodes with hnodes
  have hts : topoSort g allNodes = kahnLoop g nodes.length [] nodes := rfl
  obtain ⟨hperm, hgood, hstuck⟩ := kahnLoop_spec g nodes.length [] nodes (goodOrder_nil g)
  rw [hts]
  set res := kahnLoop g nodes.length [] nodes with hres
  have hperm2 : (res.1 ++ res.2).Perm allNodes := by
    refine List.Perm.trans ?_ hnodes_perm
    simpa using hperm
  have hnodup : (res.1 ++ res.2).Nodup := hperm2.symm.nodup hnd
  have hnd1 : res.1.Nodup := List.Nodup.of_append_left hnodup
  have hstuck2 := hstuck le_rfl
  refine ⟨hperm2, by simpa using hperm2.length_eq, ?_, ?_⟩
  · intro i j hi hj he
    have hu : res.1.get ⟨i, hi⟩ ∈ res.1 := List.get_mem _ _ _
    obtain ⟨hvmem, hlt⟩ := goodOrder_edge_indexOf g res.1 hnd1 hgood hu he
    have hidx : ∀ (k : Nat) (hk : k < res.1.length),
        res.1.indexOf (res.1.get ⟨k, hk⟩) = k := by
      intro k hk
      have hmemk : res.1.get ⟨k, hk⟩ ∈ res.1 := List.get_mem _ _ _
      have h1 : res.1.indexOf (res.1.get ⟨k, hk⟩) < res.1.length :=
        List.indexOf_lt_length.2 hmemk
      have h2 : res.1[res.1.indexOf (res.1.get ⟨k, hk⟩)] = res.1[k] := by
        simp [List.get_eq_getElem, List.getElem_indexOf h1]
      exact (hnd1.getElem_inj_iff).1 h2
    rw [hidx i hi, hidx j hj] at hlt
    exact hlt
  · intro m hm
    constructor
    · intro hm2
      have hclosed : ∀ x ∈ res.2, ∃ d, d ∈ res.2 ∧ Edge g x d := by
        intro x hx
        have hxall : x ∈ allNodes := hperm2.mem_iff.1 (List.mem_append_right _ hx)
        have hnr := hstuck2 x hx
        have hex : ∃ d ∈ succs g x, ¬ (res.1.contains d = true) := by
          by_contra hcon
          push_neg at hcon
          have hall : readyNode g res.1 x = true :=
            List.all_eq_true.2 (fun d hd => hcon d hd)
          rw [hnr] at hall
          exact Bool.noConfusion hall
        obtain ⟨d, hd, hdnc⟩ := hex
        have hdnot1 : d ∉ res.1 := fun hmem => hdnc (List.elem_iff.2 hmem)
        have hdall : d ∈ allNodes := hwf x hxall d hd
        have hdapp : d ∈ res.1 ++ res.2 := hperm2.mem_iff.2 hdall
        rcases List.mem_append.1 hdapp with h1 | h2
        · exact absurd h1 hdnot1
        · exact ⟨d, h2, hd⟩
      exact reachesCycle_of_closed g res.2 hclosed m hm2
    · intro hrc
      have hmapp : m ∈ res.1 ++ res.2 := hperm2.mem_iff.2 hm
      rcases List.mem_append.1 hmapp with h1 | h2
      · exact absurd hrc (goodOrder_not_reachesCycle g res.1 hnd1 hgood h1)
      · exact h2

theorem topoSort_spec_witness :
    (["a", "b", "c"] : List String).Nodup
    ∧ (∀ n ∈ ["a", "b", "c"],
        ∀ v ∈ succs [("a", ["b"]), ("b", ["a"]), ("c", [])] n, v ∈ ["a", "b", "c"])
    ∧ ((topoSort [("a", ["b"]), ("b", ["a"]), ("c", [])] ["a", "b", "c"]).1
        ++ (topoSort [("a", ["b"]), ("b", ["a"]), ("c", [])] ["a", "b", "c"]).2).Perm
        ["a", "b", "c"] :=
  ⟨by decide, by decide,
   (topoSort_spec [("a", ["b"]), ("b", ["a"]), ("c", [])] ["a", "b", "c"]
     (by decide) (by decide)).1⟩

end DepViz
